import Mathlib

/-!
# Verification development for the CAS satellite conjunction frontend

Shallow embedding of the TypeScript/JavaScript sources:

* `tleParser` (`parseTLE`), `satellitePropagator` (`propagateSatellite`),
  `propagateTLE`, the `fetchData` catalog-ingestion loop of
  `SatelliteVisualizer`, the TLE upload validation of `App.js`
  (`validateTLE`, `handleUploadTLE`), and the risk classification of
  `ConjunctionView` (`getRiskLevel`, `getRiskLabel`).

JavaScript numbers are modelled as `Option ℚ`: `some q` is a finite value,
`none` models a non-finite result (`NaN`, and where division is involved also
`±Infinity`).  JavaScript strings are modelled as Lean `String`s through
their character lists; the string primitives used by the sources
(`trim`, `startsWith`, `length`, `substring`, `split(',')`, `parseFloat`,
`parseInt`) are reimplemented below on `List Char`, following the ECMAScript
behaviour on the ASCII inputs this program manipulates.
-/

/-! ## JavaScript string primitives -/

/-- ASCII whitespace, the fragment of ECMAScript `WhiteSpace`/`LineTerminator`
relevant to this program's inputs. -/
def isJsWhitespace (c : Char) : Bool :=
  c = ' ' || c = '\t' || c = '\n' || c = '\r' || c = '\x0b' || c = '\x0c'

/-- The character list of `String.prototype.trim`: leading and trailing
whitespace removed. -/
def trimChars (l : List Char) : List Char :=
  ((l.dropWhile isJsWhitespace).reverse.dropWhile isJsWhitespace).reverse

/-- `s.trim()`. -/
def jsTrim (s : String) : String := String.mk (trimChars s.data)

/-- `s.startsWith(p)`. -/
def jsStartsWith (s p : String) : Bool := s.data.take p.data.length == p.data

/-- `s.length` (code-unit count; identical to the character count on the
ASCII data this program handles). -/
def jsLength (s : String) : Nat := s.data.length

/-- `s.substring(a, b)` for `a ≤ b` (clamped at the string's end, as in
ECMAScript). -/
def jsSubstring (s : String) (a b : Nat) : String :=
  String.mk ((s.data.drop a).take (b - a))

/-- Accumulator recursion behind `s.split(',')`. -/
def splitCommaAux : List Char → List Char → List (List Char)
  | [], acc => [acc.reverse]
  | c :: cs, acc =>
    if c = ',' then acc.reverse :: splitCommaAux cs [] else splitCommaAux cs (c :: acc)

/-- `s.split(',')`. -/
def jsSplitComma (s : String) : List String :=
  (splitCommaAux s.data []).map String.mk

/-! ## JavaScript numeric parsing -/

def isDigitCh (c : Char) : Bool := '0' ≤ c && c ≤ '9'

def digitVal (c : Char) : Nat := c.toNat - 48

/-- Value of a big-endian decimal digit list. -/
def digitsToNat (l : List Char) : Nat := l.foldl (fun a c => 10 * a + digitVal c) 0

/-- Optional leading sign of a JavaScript numeric literal. -/
def parseSign : List Char → ℚ × List Char
  | '+' :: r => (1, r)
  | '-' :: r => (-1, r)
  | l => (1, l)

/-- `parseFloat(s)`: skip leading whitespace, read an optional sign, then the
longest decimal-literal prefix `digits [. digits] [e/E [sign] digits]`;
`none` models `NaN` when no digit is found.  (The `Infinity` literal never
arises from this program's fixed-width TLE fields and is not modelled.) -/
def jsParseFloat (s : String) : Option ℚ :=
  let l := s.data.dropWhile isJsWhitespace
  let sr := parseSign l
  let intDigits := sr.2.takeWhile isDigitCh
  let r₁ := sr.2.dropWhile isDigitCh
  let fr : List Char × List Char :=
    match r₁ with
    | '.' :: r => (r.takeWhile isDigitCh, r.dropWhile isDigitCh)
    | _ => ([], r₁)
  if intDigits = [] ∧ fr.1 = [] then none
  else
    let mantissa : ℚ :=
      (digitsToNat intDigits : ℚ) + (digitsToNat fr.1 : ℚ) / (10 ^ fr.1.length)
    let expVal : ℤ :=
      match fr.2 with
      | 'e' :: rest =>
        match rest with
        | '+' :: er => if er.takeWhile isDigitCh = [] then 0 else (digitsToNat (er.takeWhile isDigitCh) : ℤ)
        | '-' :: er => if er.takeWhile isDigitCh = [] then 0 else -(digitsToNat (er.takeWhile isDigitCh) : ℤ)
        | er => if er.takeWhile isDigitCh = [] then 0 else (digitsToNat (er.takeWhile isDigitCh) : ℤ)
      | 'E' :: rest =>
        match rest with
        | '+' :: er => if er.takeWhile isDigitCh = [] then 0 else (digitsToNat (er.takeWhile isDigitCh) : ℤ)
        | '-' :: er => if er.takeWhile isDigitCh = [] then 0 else -(digitsToNat (er.takeWhile isDigitCh) : ℤ)
        | er => if er.takeWhile isDigitCh = [] then 0 else (digitsToNat (er.takeWhile isDigitCh) : ℤ)
      | _ => 0
    some (sr.1 * mantissa * (10 : ℚ) ^ expVal)

/-- `parseInt(s)` with the default radix 10: skip whitespace, optional sign,
longest digit prefix; `none` models `NaN`. -/
def jsParseInt (s : String) : Option ℚ :=
  let l := s.data.dropWhile isJsWhitespace
  let sr := parseSign l
  let ds := sr.2.takeWhile isDigitCh
  if ds = [] then none else some (sr.1 * (digitsToNat ds : ℚ))

/-! ## Arithmetic on JavaScript numbers (`Option ℚ`, `none` = non-finite) -/

def jsAdd : Option ℚ → Option ℚ → Option ℚ
  | some a, some b => some (a + b)
  | _, _ => none

def jsSub : Option ℚ → Option ℚ → Option ℚ
  | some a, some b => some (a - b)
  | _, _ => none

def jsMul : Option ℚ → Option ℚ → Option ℚ
  | some a, some b => some (a * b)
  | _, _ => none

/-- Division; `none` also covers `x / 0 = ±Infinity`. -/
def jsDiv : Option ℚ → Option ℚ → Option ℚ
  | some a, some b => if b = 0 then none else some (a / b)
  | _, _ => none

/-! ## Risk classification (`ConjunctionView`) -/

/-- `getRiskLevel` of `ConjunctionView`: collision probability to CSS class. -/
def getRiskLevel (probability : ℚ) : String :=
  if probability > 0.7 then "highRisk"
  else if probability > 0.3 then "mediumRisk"
  else "lowRisk"

/-- `getRiskLabel` of `ConjunctionView`: collision probability to display label. -/
def getRiskLabel (probability : ℚ) : String :=
  if probability > 0.7 then "HIGH RISK"
  else if probability > 0.3 then "MEDIUM RISK"
  else "LOW RISK"

/-- Claim C2: for every `collisionProbability` value `p`, the assigned risk
level is a pure function of `p` alone: high exactly when `p > 0.7`, medium
exactly when `0.3 < p ≤ 0.7`, and low otherwise (`p ≤ 0.3`); the display
label agrees with the level. -/
theorem riskLevel_pure_threshold_function (p : ℚ) :
    (getRiskLevel p = "highRisk" ↔ 0.7 < p)
    ∧ (getRiskLevel p = "mediumRisk" ↔ 0.3 < p ∧ p ≤ 0.7)
    ∧ (getRiskLevel p = "lowRisk" ↔ p ≤ 0.3)
    ∧ (getRiskLabel p = "HIGH RISK" ↔ getRiskLevel p = "highRisk")
    ∧ (getRiskLabel p = "MEDIUM RISK" ↔ getRiskLevel p = "mediumRisk")
    ∧ (getRiskLabel p = "LOW RISK" ↔ getRiskLevel p = "lowRisk") := by
  unfold getRiskLevel getRiskLabel
  split_ifs with h1 h2
  · refine ⟨⟨fun _ => h1, fun _ => rfl⟩, ⟨fun h => absurd h (by decide), fun h => absurd h1 (not_lt.mpr h.2)⟩,
      ⟨fun h => absurd h (by decide), fun h => absurd h1 (not_lt.mpr (h.trans (by norm_num)))⟩,
      ?_, ?_, ?_⟩ <;> constructor <;> intro h <;> first | rfl | exact absurd h (by decide)
  · refine ⟨⟨fun h => absurd h (by decide), fun h => absurd h h1⟩,
      ⟨fun _ => ⟨h2, not_lt.mp h1⟩, fun _ => rfl⟩,
      ⟨fun h => absurd h (by decide), fun h => absurd h2 (not_lt.mpr h)⟩,
      ?_, ?_, ?_⟩ <;> constructor <;> intro h <;> first | rfl | exact absurd h (by decide)
  · refine ⟨⟨fun h => absurd h (by decide), fun h => absurd h h1⟩,
      ⟨fun h => absurd h (by decide), fun h => absurd h.1 h2⟩,
      ⟨fun _ => not_lt.mp h2, fun _ => rfl⟩,
      ?_, ?_, ?_⟩ <;> constructor <;> intro h <;> first | rfl | exact absurd h (by decide)

/-- Concrete instantiation of `riskLevel_pure_threshold_function` at `p = 0.5`. -/
theorem riskLevel_pure_threshold_function_witness :
    getRiskLevel (0.5 : ℚ) = "mediumRisk" :=
  ((riskLevel_pure_threshold_function (0.5 : ℚ)).2.1).mpr (by constructor <;> norm_num)

/-- Claim C3, counterexample: probability exactly `0.3` is classified
`lowRisk`, not `mediumRisk` — the claim's statement that the boundary `0.3`
yields medium is false of `getRiskLevel`. -/
theorem riskLevel_boundary_counterexample :
    getRiskLevel (0.3 : ℚ) = "lowRisk" ∧ getRiskLevel (0.3 : ℚ) ≠ "mediumRisk" := by
  have h : getRiskLevel (0.3 : ℚ) = "lowRisk" := by
    unfold getRiskLevel
    rw [if_neg (by norm_num), if_neg (by norm_num)]
  exact ⟨h, by rw [h]; decide⟩

/-- Claim C3 (amended): both threshold comparisons are strict, so the two
boundaries classify asymmetrically low-side: probability exactly `0.7` is
classified medium (not high) and probability exactly `0.3` is classified low
(not medium); away from the boundaries, `0.75` yields high, `0.5` yields
medium, and `0.1` yields low, with the display label agreeing throughout. -/
theorem riskLevel_boundaries_amended :
    getRiskLevel (0.7 : ℚ) = "mediumRisk"
    ∧ getRiskLevel (0.3 : ℚ) = "lowRisk"
    ∧ getRiskLevel (0.75 : ℚ) = "highRisk"
    ∧ getRiskLevel (0.5 : ℚ) = "mediumRisk"
    ∧ getRiskLevel (0.1 : ℚ) = "lowRisk"
    ∧ getRiskLabel (0.7 : ℚ) = "MEDIUM RISK"
    ∧ getRiskLabel (0.3 : ℚ) = "LOW RISK" := by
  unfold getRiskLevel getRiskLabel
  refine ⟨?_, ?_, ?_, ?_, ?_, ?_, ?_⟩
  · rw [if_neg (by norm_num), if_pos (by norm_num)]
  · rw [if_neg (by norm_num), if_neg (by norm_num)]
  · rw [if_pos (by norm_num)]
  · rw [if_neg (by norm_num), if_pos (by norm_num)]
  · rw [if_neg (by norm_num), if_neg (by norm_num)]
  · rw [if_neg (by norm_num), if_pos (by norm_num)]
  · rw [if_neg (by norm_num), if_neg (by norm_num)]

/-! ## TLE parsing (`tleParser.ts`) -/

/-- The `Date` value built by `parseTLE`, abstracted to the level the code
constructs it: `new Date()` is set to January 1st, 00:00:00 of year
`2000 + epochYear`, then advanced by `epochDay - 1` days
(`setDate(getDate() + epochDay - 1)` from date 1). -/
structure JsEpoch where
  year : Option ℚ
  dayOffset : Option ℚ
deriving DecidableEq

/-- The `TLE` interface of `tleParser.ts`. -/
structure TLE where
  line1 : String
  line2 : String
  epoch : JsEpoch
  meanMotion : Option ℚ
  eccentricity : Option ℚ
  inclination : Option ℚ
  rightAscension : Option ℚ
  argumentOfPerigee : Option ℚ
  meanAnomaly : Option ℚ
  bstar : Option ℚ
deriving DecidableEq

/-- `parseTLE(line1, line2)` of `tleParser.ts`.  The source wraps the body in
`try`/`catch` and returns `null` on an exception, but every operation in the
body (`substring`, `parseInt`, `parseFloat`, the `Date` setters) is total in
JavaScript — out-of-range `substring` clamps and unparsable numbers give
`NaN`, never a throw — so the catch branch is unreachable and the embedding
always returns `some`. -/
def parseTLE (line1 line2 : String) : Option TLE :=
  let epochYear := jsParseInt (jsSubstring line1 18 20)
  let epochDay := jsParseFloat (jsSubstring line1 20 32)
  let meanMotion := jsParseFloat (jsSubstring line1 52 63)
  let bstar := jsMul (jsParseFloat (jsSubstring line1 53 61)) (some (1 / 100000))
  let inclination := jsParseFloat (jsSubstring line2 8 16)
  let rightAscension := jsParseFloat (jsSubstring line2 17 25)
  let eccentricity := jsParseFloat ("0." ++ jsSubstring line2 26 33)
  let argumentOfPerigee := jsParseFloat (jsSubstring line2 34 42)
  let meanAnomaly := jsParseFloat (jsSubstring line2 43 51)
  let epoch : JsEpoch :=
    { year := jsAdd (some 2000) epochYear, dayOffset := jsSub epochDay (some 1) }
  some { line1 := line1, line2 := line2, epoch := epoch, meanMotion := meanMotion,
         eccentricity := eccentricity, inclination := inclination,
         rightAscension := rightAscension, argumentOfPerigee := argumentOfPerigee,
         meanAnomaly := meanAnomaly, bstar := bstar }

/-- `24 * 3600 / tle.meanMotion`, the orbital-period-in-seconds expression
used by the sampling loops of `SatelliteVisualizer.fetchData` and
`generateCZML`. -/
def orbitalPeriod (tle : TLE) : Option ℚ := jsDiv (some (24 * 3600)) tle.meanMotion


/-- `parseTLE` written out: it always succeeds, with every numeric field read
from the documented character range. -/
theorem parseTLE_eq (l1 l2 : String) :
    parseTLE l1 l2 = some
      { line1 := l1
        line2 := l2
        epoch := { year := jsAdd (some 2000) (jsParseInt (jsSubstring l1 18 20))
                   dayOffset := jsSub (jsParseFloat (jsSubstring l1 20 32)) (some 1) }
        meanMotion := jsParseFloat (jsSubstring l1 52 63)
        eccentricity := jsParseFloat ("0." ++ jsSubstring l2 26 33)
        inclination := jsParseFloat (jsSubstring l2 8 16)
        rightAscension := jsParseFloat (jsSubstring l2 17 25)
        argumentOfPerigee := jsParseFloat (jsSubstring l2 34 42)
        meanAnomaly := jsParseFloat (jsSubstring l2 43 51)
        bstar := jsMul (jsParseFloat (jsSubstring l1 53 61)) (some (1 / 100000)) } := rfl

/-! ## Catalog ingestion (`SatelliteVisualizer.fetchData`) -/

/-- The trimmed comma-separated fields of one CSV row:
`lines[i].split(',').map(s => s.trim())`; the destructured `name`,
`tleLine1`, `tleLine2` are entries 0, 1, 2 (a missing entry is `undefined`,
which like `""` is falsy, so both are modelled by the default `""`). -/
def rowFields (row : String) : List String := (jsSplitComma row).map jsTrim

/-- Processing of one catalog CSV row by `fetchData`: keep the record only
when `tleLine1 && tleLine2` holds (non-empty trimmed fields), then parse and,
when `parseTLE` returns a truthy value, push `{ name, tle }` (this is the
record before name disambiguation). -/
def ingestRow (row : String) : Option (String × TLE) :=
  if (rowFields row).getD 1 "" ≠ "" ∧ (rowFields row).getD 2 "" ≠ "" then
    match parseTLE ((rowFields row).getD 1 "") ((rowFields row).getD 2 "") with
    | some tle => some ((rowFields row).getD 0 "", tle)
    | none => none
  else none

/-- Claim C5, counterexample: the record `"BADSAT,XXX,YYY"` — whose lines
start with neither `'1'` nor `'2'` and are 3 characters long, not 69 — is
not rejected by catalog ingestion: it enters the satellite set with its
malformed lines stored verbatim.  The claim that such records are dropped is
false of `fetchData`/`parseTLE`, which validate nothing beyond
non-emptiness of the CSV fields. -/
theorem catalog_ingestion_counterexample :
    (ingestRow "BADSAT,XXX,YYY").isSome = true
    ∧ jsStartsWith "XXX" "1" = false
    ∧ jsStartsWith "YYY" "2" = false
    ∧ jsLength "XXX" ≠ 69
    ∧ (∃ tle, ingestRow "BADSAT,XXX,YYY" = some ("BADSAT", tle)
        ∧ tle.line1 = "XXX" ∧ tle.line2 = "YYY") := by
  exact ⟨rfl, rfl, rfl, by decide, ⟨_, rfl, rfl, rfl⟩⟩

/-- Claim C5 (amended): catalog ingestion rejects a record exactly when its
second or third comma-separated field is empty after trimming; `parseTLE`
performs no line-number-prefix or length validation (it returns a `TLE` with
`NaN`-valued numeric fields for arbitrary strings), so any record with two
non-empty fields enters the satellite set, its lines stored exactly as the
trimmed fields. -/
theorem catalog_ingestion_gate (row : String) :
    ((ingestRow row).isSome = true ↔
      ((rowFields row).getD 1 "" ≠ "" ∧ (rowFields row).getD 2 "" ≠ ""))
    ∧ (∀ name tle, ingestRow row = some (name, tle) →
        name = (rowFields row).getD 0 ""
        ∧ tle.line1 = (rowFields row).getD 1 ""
        ∧ tle.line2 = (rowFields row).getD 2 "") := by
  constructor
  · unfold ingestRow
    by_cases h : (rowFields row).getD 1 "" ≠ "" ∧ (rowFields row).getD 2 "" ≠ ""
    · rw [if_pos h, parseTLE_eq]
      exact iff_of_true rfl h
    · rw [if_neg h]
      exact iff_of_false (fun hh => Bool.noConfusion hh) h
  · intro name tle h
    unfold ingestRow at h
    by_cases hc : (rowFields row).getD 1 "" ≠ "" ∧ (rowFields row).getD 2 "" ≠ ""
    · rw [if_pos hc, parseTLE_eq] at h
      injection h with h1
      injection h1 with ha hb
      subst ha
      subst hb
      exact ⟨rfl, rfl, rfl⟩
    · rw [if_neg hc] at h
      exact Option.noConfusion h

/-- Concrete instantiation of `catalog_ingestion_gate`: a row with two
non-empty line fields is ingested. -/
theorem catalog_ingestion_gate_witness :
    (ingestRow "SAT-A,1 11111,2 11111").isSome = true :=
  (catalog_ingestion_gate "SAT-A,1 11111,2 11111").1.mpr (by decide)

/-! ## Sample TLE data (the ISS example lines shipped in `App.js` as the
upload-dialog placeholders) -/

def issLine1 : String :=
  "1 25544U 98067A   08264.51782528 -.00002182  00000-0 -11606-4 0  2927"

def issLine2 : String :=
  "2 25544  51.6416 247.4627 0006703 130.5360 325.0288 15.72125391563537"

/-- Claim C9: for every pair of lines accepted by `parseTLE`, the derived
`meanMotion` equals the numeric parse of characters 52–63 of **line 1** (not
of line 2's mean-motion field), and the orbital-period expression
`24 * 3600 / meanMotion` used by the sampling loops is computed from this
line-1-derived value.  On the repository's ISS sample the two fields parse
to different numbers, so the distinction is observable. -/
theorem meanMotion_read_from_line1 (l1 l2 : String) (tle : TLE)
    (h : parseTLE l1 l2 = some tle) :
    tle.meanMotion = jsParseFloat (jsSubstring l1 52 63)
    ∧ orbitalPeriod tle = jsDiv (some (24 * 3600)) (jsParseFloat (jsSubstring l1 52 63))
    ∧ jsParseFloat (jsSubstring issLine1 52 63) ≠ jsParseFloat (jsSubstring issLine2 52 63) := by
  rw [parseTLE_eq] at h
  injection h with h1
  subst h1
  refine ⟨rfl, rfl, ?_⟩
  have e1 : jsSubstring issLine1 52 63 = " -11606-4 0" := rfl
  have e2 : jsSubstring issLine2 52 63 = "15.72125391" := rfl
  have v1 : jsParseFloat " -11606-4 0"
      = some ((-1) * ((11606 : ℚ) + (0 : ℚ) / 10 ^ 0) * (10 : ℚ) ^ (0 : ℤ)) := rfl
  have v2 : jsParseFloat "15.72125391"
      = some ((1 : ℚ) * ((15 : ℚ) + (72125391 : ℚ) / 10 ^ 8) * (10 : ℚ) ^ (0 : ℤ)) := rfl
  rw [e1, e2, v1, v2]
  intro hq
  rw [Option.some.injEq] at hq
  norm_num at hq

/-- Concrete instantiation of `meanMotion_read_from_line1` on the ISS sample
lines. -/
theorem meanMotion_read_from_line1_witness :
    ∃ tle, parseTLE issLine1 issLine2 = some tle
      ∧ tle.meanMotion = jsParseFloat (jsSubstring issLine1 52 63) := by
  obtain ⟨tle, h⟩ : ∃ t, parseTLE issLine1 issLine2 = some t := ⟨_, rfl⟩
  exact ⟨tle, h, (meanMotion_read_from_line1 issLine1 issLine2 tle h).1⟩

/-- Claim C10: for every TLE parsed by `parseTLE`, the derived epoch year is
always `2000 +` the two-digit year field (characters 18–20 of line 1) — in
particular two-digit years 57–99, which denote 1957–1999 in the TLE
convention, are mapped to calendar years 2057–2099 — and the epoch date is
January 1st of that year advanced by `epochDay - 1` days. -/
theorem epoch_year_always_2000_plus (l1 l2 : String) (tle : TLE)
    (h : parseTLE l1 l2 = some tle) :
    tle.epoch.year = jsAdd (some 2000) (jsParseInt (jsSubstring l1 18 20))
    ∧ tle.epoch.dayOffset = jsSub (jsParseFloat (jsSubstring l1 20 32)) (some 1)
    ∧ (∀ yy : ℕ, 57 ≤ yy → yy ≤ 99 →
        jsParseInt (jsSubstring l1 18 20) = some (yy : ℚ) →
        tle.epoch.year = some (((2000 + yy : ℕ) : ℚ))
        ∧ 2057 ≤ 2000 + yy ∧ 2000 + yy ≤ 2099) := by
  rw [parseTLE_eq] at h
  injection h with h1
  subst h1
  refine ⟨rfl, rfl, fun yy h57 h99 hp => ⟨?_, by omega, by omega⟩⟩
  show jsAdd (some 2000) (jsParseInt (jsSubstring l1 18 20)) = _
  rw [hp]
  unfold jsAdd
  rw [Option.some.injEq]
  push_cast
  ring

/-- Concrete instantiation of `epoch_year_always_2000_plus`: a line whose
two-digit epoch-year field is `98` yields epoch year 2098, not 1998. -/
theorem epoch_year_always_2000_plus_witness :
    ∃ tle, parseTLE
        "1 25544U 98067A   98264.51782528 -.00002182  00000-0 -11606-4 0  2927"
        issLine2 = some tle
      ∧ tle.epoch.year = some (((2000 + 98 : ℕ) : ℚ)) := by
  obtain ⟨tle, h⟩ : ∃ t, parseTLE
      "1 25544U 98067A   98264.51782528 -.00002182  00000-0 -11606-4 0  2927"
      issLine2 = some t := ⟨_, rfl⟩
  have hp : jsParseInt (jsSubstring
      "1 25544U 98067A   98264.51782528 -.00002182  00000-0 -11606-4 0  2927" 18 20)
      = some ((98 : ℕ) : ℚ) := by
    have e : jsParseInt (jsSubstring
        "1 25544U 98067A   98264.51782528 -.00002182  00000-0 -11606-4 0  2927" 18 20)
        = some ((1 : ℚ) * (98 : ℚ)) := rfl
    rw [e, Option.some.injEq]
    norm_num
  exact ⟨tle, h,
    ((epoch_year_always_2000_plus _ _ tle h).2.2 98 (by norm_num) (by norm_num) hp).1⟩

/-! ## Properties of `trim` needed to reason about re-trimming -/

theorem dropWhile_dropWhile (p : Char → Bool) (l : List Char) :
    (l.dropWhile p).dropWhile p = l.dropWhile p := by
  induction l with
  | nil => rfl
  | cons c t ih =>
    by_cases h : p c = true
    · rw [List.dropWhile_cons, if_pos h]
      exact ih
    · rw [List.dropWhile_cons, if_neg h, List.dropWhile_cons, if_neg h]

theorem dropWhile_length_le (p : Char → Bool) (l : List Char) :
    (l.dropWhile p).length ≤ l.length := by
  induction l with
  | nil => exact Nat.le_refl _
  | cons c t ih =>
    by_cases h : p c = true
    · rw [List.dropWhile_cons, if_pos h]
      exact Nat.le_succ_of_le ih
    · rw [List.dropWhile_cons, if_neg h]

theorem dropWhile_eq_suffix (p : Char → Bool) (l : List Char) :
    ∃ m, m ++ l.dropWhile p = l := by
  induction l with
  | nil => exact ⟨[], rfl⟩
  | cons c t ih =>
    by_cases h : p c = true
    · obtain ⟨m, hm⟩ := ih
      exact ⟨c :: m, by rw [List.dropWhile_cons, if_pos h, List.cons_append, hm]⟩
    · exact ⟨[], by rw [List.dropWhile_cons, if_neg h, List.nil_append]⟩

theorem trimChars_idem (l : List Char) : trimChars (trimChars l) = trimChars l := by
  have hrev : (trimChars l).reverse
      = (l.dropWhile isJsWhitespace).reverse.dropWhile isJsWhitespace := by
    unfold trimChars
    rw [List.reverse_reverse]
  have hfix : (trimChars l).dropWhile isJsWhitespace = trimChars l := by
    obtain ⟨m, hm⟩ := dropWhile_eq_suffix isJsWhitespace (l.dropWhile isJsWhitespace).reverse
    have hA : l.dropWhile isJsWhitespace = trimChars l ++ m.reverse := by
      have h := congrArg List.reverse hm
      rw [List.reverse_append, List.reverse_reverse] at h
      exact h.symm
    cases hc : trimChars l with
    | nil => rfl
    | cons c t =>
      have hAd := dropWhile_dropWhile isJsWhitespace l
      rw [hA, hc, List.cons_append] at hAd
      by_cases hwc : isJsWhitespace c = true
      · rw [List.dropWhile_cons, if_pos hwc] at hAd
        have hlen := congrArg List.length hAd
        have hle := dropWhile_length_le isJsWhitespace (t ++ m.reverse)
        rw [List.length_cons] at hlen
        omega
      · rw [List.dropWhile_cons, if_neg hwc]
  calc trimChars (trimChars l)
      = (((trimChars l).dropWhile isJsWhitespace).reverse.dropWhile isJsWhitespace).reverse := rfl
    _ = ((trimChars l).reverse.dropWhile isJsWhitespace).reverse := by rw [hfix]
    _ = (((l.dropWhile isJsWhitespace).reverse.dropWhile isJsWhitespace).dropWhile
          isJsWhitespace).reverse := by rw [hrev]
    _ = ((l.dropWhile isJsWhitespace).reverse.dropWhile isJsWhitespace).reverse := by
          rw [dropWhile_dropWhile]
    _ = trimChars l := rfl

theorem jsTrim_idem (s : String) : jsTrim (jsTrim s) = jsTrim s := by
  show String.mk (trimChars (trimChars s.data)) = String.mk (trimChars s.data)
  exact congrArg String.mk (trimChars_idem s.data)

/-! ## TLE upload validation (`App.js`) -/

/-- `validateTLE(tle1, tle2)` of `App.js`: both lines truthy (non-empty),
trimmed line 1 starts with `'1'` and trimmed line 2 with `'2'`, and both
trimmed lines are exactly 69 characters. -/
def validateTLE (tle1 tle2 : String) : Bool :=
  if tle1 = "" ∨ tle2 = "" then false
  else if jsStartsWith (jsTrim tle1) "1" = false
      ∨ jsStartsWith (jsTrim tle2) "2" = false then false
  else if jsLength (jsTrim tle1) ≠ 69 ∨ jsLength (jsTrim tle2) ≠ 69 then false
  else true

/-- `handleUploadTLE` of `App.js`, up to the point the satellite is sent to
the backend: all three fields must be truthy; the name and lines are
trimmed; `validateTLE` must accept the trimmed lines; on success the posted
payload carries the trimmed values (`none` models the rejection paths that
set a validation error and register nothing). -/
def handleUploadTLE (name tle1 tle2 : String) : Option (String × String × String) :=
  if name = "" ∨ tle1 = "" ∨ tle2 = "" then none
  else if validateTLE (jsTrim tle1) (jsTrim tle2) = true then
    some (jsTrim name, jsTrim tle1, jsTrim tle2)
  else none

/-- Claim C4: for every user TLE upload `(name, line1, line2)` with a
non-empty name: if, after trimming, line 1 does not start with `'1'`, or
line 2 does not start with `'2'`, or either trimmed line is empty or not
exactly 69 characters long, the upload is rejected and no satellite is
registered; for inputs passing all checks the upload proceeds and the
posted lines equal the trimmed input. -/
theorem upload_tle_validation (name tle1 tle2 : String) (hname : name ≠ "") :
    ((jsStartsWith (jsTrim tle1) "1" = false
        ∨ jsStartsWith (jsTrim tle2) "2" = false
        ∨ jsTrim tle1 = "" ∨ jsTrim tle2 = ""
        ∨ jsLength (jsTrim tle1) ≠ 69 ∨ jsLength (jsTrim tle2) ≠ 69) →
      handleUploadTLE name tle1 tle2 = none)
    ∧ (jsStartsWith (jsTrim tle1) "1" = true → jsStartsWith (jsTrim tle2) "2" = true →
        jsLength (jsTrim tle1) = 69 → jsLength (jsTrim tle2) = 69 →
        handleUploadTLE name tle1 tle2 = some (jsTrim name, jsTrim tle1, jsTrim tle2)) := by
  constructor
  · intro hbad
    unfold handleUploadTLE
    by_cases h0 : name = "" ∨ tle1 = "" ∨ tle2 = ""
    · rw [if_pos h0]
    · rw [if_neg h0]
      have hval : validateTLE (jsTrim tle1) (jsTrim tle2) = false := by
        unfold validateTLE
        rw [jsTrim_idem tle1, jsTrim_idem tle2]
        by_cases he : jsTrim tle1 = "" ∨ jsTrim tle2 = ""
        · rw [if_pos he]
        · rw [if_neg he]
          by_cases hs : jsStartsWith (jsTrim tle1) "1" = false
              ∨ jsStartsWith (jsTrim tle2) "2" = false
          · rw [if_pos hs]
          · rw [if_neg hs]
            have hlen : jsLength (jsTrim tle1) ≠ 69 ∨ jsLength (jsTrim tle2) ≠ 69 := by
              push_neg at hs he
              rcases hbad with h | h | h | h | h | h
              · exact absurd h hs.1
              · exact absurd h hs.2
              · exact absurd h he.1
              · exact absurd h he.2
              · exact Or.inl h
              · exact Or.inr h
            rw [if_pos hlen]
      have hnt : ¬ validateTLE (jsTrim tle1) (jsTrim tle2) = true := by
        rw [hval]
        exact fun h => Bool.noConfusion h
      rw [if_neg hnt]
  · intro hs1 hs2 hl1 hl2
    have ht1 : jsTrim tle1 ≠ "" := fun he => by
      rw [he] at hs1
      exact Bool.noConfusion hs1
    have ht2 : jsTrim tle2 ≠ "" := fun he => by
      rw [he] at hs2
      exact Bool.noConfusion hs2
    have h1 : tle1 ≠ "" := fun he => ht1 (by rw [he]; decide)
    have h2 : tle2 ≠ "" := fun he => ht2 (by rw [he]; decide)
    have h0 : ¬ (name = "" ∨ tle1 = "" ∨ tle2 = "") := by
      push_neg
      exact ⟨hname, h1, h2⟩
    unfold handleUploadTLE
    rw [if_neg h0]
    have hval : validateTLE (jsTrim tle1) (jsTrim tle2) = true := by
      unfold validateTLE
      rw [jsTrim_idem tle1, jsTrim_idem tle2]
      rw [if_neg (by push_neg; exact ⟨ht1, ht2⟩)]
      rw [if_neg (by simp [hs1, hs2])]
      rw [if_neg (by simp [hl1, hl2])]
    rw [if_pos hval]

/-- Concrete instantiation of `upload_tle_validation`: the ISS sample lines
pass validation and are posted trimmed (here already trimmed). -/
theorem upload_tle_validation_witness :
    handleUploadTLE "ISS (ZARYA)" issLine1 issLine2
      = some (jsTrim "ISS (ZARYA)", jsTrim issLine1, jsTrim issLine2) :=
  (upload_tle_validation "ISS (ZARYA)" issLine1 issLine2 (by decide)).2
    (by decide) (by decide) (by decide) (by decide)

/-! ## Propagation (`satellitePropagator.ts`, `propagateTLE`) -/

/-- An ECI position triple (components in the unit the context states). -/
structure Vec3 where
  x : ℚ
  y : ℚ
  z : ℚ
deriving DecidableEq

/-- The external SGP4-class model (`satellite.js`: `twoline2satrec` followed
by `propagate`) abstracted as an oracle: `(line1, line2, Date-in-ms)` to the
km-based ECI position, or `none` when the call throws or reports a
decayed/invalid orbit (a boolean `position`).  `propagateSatellite` passes a
JavaScript `Date`, modelled by its millisecond value. -/
def SgpDateModel : Type := String → String → ℤ → Option Vec3

/-- `propagateSatellite(tle, time)` of `satellitePropagator.ts`: build the
satrec from the TLE lines, propagate at `time`, and on a truthy non-boolean
position convert kilometers to meters; exceptions and invalid output are
totalized to `null` (`none`). -/
def propagateSatellite (model : SgpDateModel) (tle : TLE) (timeMs : ℤ) : Option Vec3 :=
  match model tle.line1 tle.line2 timeMs with
  | some p => some { x := p.x * 1000, y := p.y * 1000, z := p.z * 1000 }
  | none => none

/-- The sampling-loop shape shared by `fetchData` (100 points), the
selected-satellite path effect (200 points) and `generateCZML`
(200/300 points): walk the sample times in order and push a position only
when the propagator returned one (`if (position) { positions.push(...) }`). -/
def positionsLoop (f : ℤ → Option Vec3) : List ℤ → List Vec3
  | [] => []
  | t :: ts =>
    match f t with
    | some p => p :: positionsLoop f ts
    | none => positionsLoop f ts

/-- Claim C6: propagation failure is a non-fatal error value:
`propagateSatellite` returns `null` exactly when the underlying model throws
or reports an invalid position, and every sampling loop skips a `null`
sample, so its output list is the `filterMap` of the propagator over the
sample times — it contains only successfully propagated samples, and the
run never aborts. -/
theorem propagation_errors_skipped (model : SgpDateModel) (tle : TLE) :
    (∀ t, propagateSatellite model tle t = none ↔ model tle.line1 tle.line2 t = none)
    ∧ (∀ ts : List ℤ, positionsLoop (propagateSatellite model tle) ts
        = ts.filterMap (propagateSatellite model tle))
    ∧ (∀ (ts : List ℤ) (p : Vec3), p ∈ positionsLoop (propagateSatellite model tle) ts →
        ∃ t ∈ ts, propagateSatellite model tle t = some p) := by
  have hloop : ∀ (f : ℤ → Option Vec3) (ts : List ℤ),
      positionsLoop f ts = ts.filterMap f := by
    intro f ts
    induction ts with
    | nil => rfl
    | cons t ts ih =>
      rw [List.filterMap_cons]
      cases h : f t with
      | none =>
        show (match f t with
          | some p => p :: positionsLoop f ts
          | none => positionsLoop f ts) = _
        rw [h]
        exact ih
      | some p =>
        show (match f t with
          | some p => p :: positionsLoop f ts
          | none => positionsLoop f ts) = _
        rw [h, ih]
  refine ⟨fun t => ?_, hloop _, fun ts p hp => ?_⟩
  · cases h : model tle.line1 tle.line2 t with
    | none => simp [propagateSatellite, h]
    | some q => simp [propagateSatellite, h]
  · rw [hloop] at hp
    exact List.mem_filterMap.mp hp

/-- A model for witnesses: position (1, 1, 1) km at time 0, failure at every
other time. -/
def skipModel : SgpDateModel := fun _ _ t => if t = 0 then some ⟨1, 1, 1⟩ else none

/-- Concrete instantiation of `propagation_errors_skipped`: with a model that
fails at time 5, the loop output over `[0, 5]` contains only the successful
sample, and that sample traces back to time 0. -/
theorem propagation_errors_skipped_witness :
    ∃ tle, parseTLE issLine1 issLine2 = some tle
      ∧ ∃ t ∈ ([0, 5] : List ℤ),
          propagateSatellite skipModel tle t = some ⟨1000, 1000, 1000⟩ := by
  obtain ⟨tle, h⟩ : ∃ t, parseTLE issLine1 issLine2 = some t := ⟨_, rfl⟩
  refine ⟨tle, h, (propagation_errors_skipped skipModel tle).2.2 [0, 5] ⟨1000, 1000, 1000⟩ ?_⟩
  have e : positionsLoop (propagateSatellite skipModel tle) [0, 5]
      = [⟨(1 : ℚ) * 1000, (1 : ℚ) * 1000, (1 : ℚ) * 1000⟩] := rfl
  rw [e, List.mem_singleton, Vec3.mk.injEq]
  norm_num

/-! ## The `propagateTLE` time argument (`propagateTLE.ts`) -/

/-- `new Date(0).getTime()`: the Unix epoch, 0 ms. -/
def unixEpochMs : ℤ := 0

/-- The per-sample argument `propagateTLE` passes to `satellite.propagate`:
`(currentTime.getTime() - new Date(0).getTime()) / (1000 * 60)` — minutes
elapsed since the Unix epoch.  The TLE epoch does not occur in the
expression. -/
def propagateTLEMinutesArg (currentTimeMs : ℤ) : ℚ :=
  ((currentTimeMs : ℚ) - (unixEpochMs : ℚ)) / (1000 * 60)

/-- Modelled from the spec (§4.2), for comparison: the propagation-model time
argument the specification describes, the elapsed minutes between the TLE
epoch and the target timestamp. -/
def specMinutesSinceEpoch (epochMs targetMs : ℤ) : ℚ :=
  ((targetMs : ℚ) - (epochMs : ℚ)) / (1000 * 60)

/-- Claim C1 is right about the intent and the code is wrong: the argument
`propagateTLE` passes equals the minutes since the **Unix** epoch
(1970-01-01), whatever the TLE epoch is.  At a sample taken exactly at a
2008 TLE epoch (1221955515000 ms) the elapsed-minutes-since-TLE-epoch value
the claim and spec describe is 0, while the code passes 20365925.25. -/
theorem propagateTLE_time_argument_bug :
    (∀ tMs : ℤ, propagateTLEMinutesArg tMs = specMinutesSinceEpoch unixEpochMs tMs)
    ∧ propagateTLEMinutesArg 1221955515000 = 20365925.25
    ∧ specMinutesSinceEpoch 1221955515000 1221955515000 = 0
    ∧ propagateTLEMinutesArg 1221955515000 ≠ specMinutesSinceEpoch 1221955515000 1221955515000 := by
  have h1 : propagateTLEMinutesArg 1221955515000 = 20365925.25 := by
    unfold propagateTLEMinutesArg unixEpochMs
    norm_num
  have h2 : specMinutesSinceEpoch 1221955515000 1221955515000 = 0 := by
    unfold specMinutesSinceEpoch
    norm_num
  refine ⟨fun t => rfl, h1, h2, ?_⟩
  rw [h1, h2]
  norm_num

/-! ## `propagateTLE` sample construction (units) -/

/-- `satellite.propagate` as `propagateTLE` misuses it: the second argument
is a plain minutes number (the `@ts-ignore` call), so the oracle is indexed
by that numeric argument. -/
def SgpMinutesModel : Type := String → String → ℚ → Option Vec3

/-- One sample of `propagateTLE`: invoke the model at the
minutes-since-Unix-epoch argument and, on a truthy non-boolean position,
build the Cartesian sample as `position.{x,y,z} * 1000` ("Convert km to
meters"); otherwise the sample is dropped. -/
def propagateTLESample (model : SgpMinutesModel) (line1 line2 : String)
    (currentTimeMs : ℤ) : Option Vec3 :=
  match model line1 line2 (propagateTLEMinutesArg currentTimeMs) with
  | some p => some { x := p.x * 1000, y := p.y * 1000, z := p.z * 1000 }
  | none => none

/-- A model reporting the constant km-based ECI position (1, 2, 3). -/
def kmModel : SgpMinutesModel := fun _ _ _ => some { x := 1, y := 2, z := 3 }

/-- Claim C7, counterexample: when the model reports the km-based ECI
position (1, 2, 3), the stored sample is (1000, 2000, 3000) — the position
components are *not* expressed in kilometers. -/
theorem propagateTLE_km_counterexample :
    propagateTLESample kmModel issLine1 issLine2 0
      = some ⟨(1 : ℚ) * 1000, (2 : ℚ) * 1000, (3 : ℚ) * 1000⟩
    ∧ propagateTLESample kmModel issLine1 issLine2 0 ≠ some ⟨1, 2, 3⟩ := by
  have e : propagateTLESample kmModel issLine1 issLine2 0
      = some ⟨(1 : ℚ) * 1000, (2 : ℚ) * 1000, (3 : ℚ) * 1000⟩ := rfl
  refine ⟨e, ?_⟩
  rw [e]
  intro h
  rw [Option.some.injEq, Vec3.mk.injEq] at h
  norm_num at h

/-- Claim C7 (amended): for every successful propagation, the stored sample's
position components are the model's km-based ECI components multiplied by
1000, i.e. expressed in meters (Cesium's unit); the model's velocity is not
used by `propagateTLE`. -/
theorem propagateTLE_sample_meters (model : SgpMinutesModel) (line1 line2 : String)
    (tMs : ℤ) (p : Vec3)
    (h : model line1 line2 (propagateTLEMinutesArg tMs) = some p) :
    propagateTLESample model line1 line2 tMs
      = some ⟨p.x * 1000, p.y * 1000, p.z * 1000⟩ := by
  unfold propagateTLESample
  rw [h]

/-- Concrete instantiation of `propagateTLE_sample_meters` on `kmModel`. -/
theorem propagateTLE_sample_meters_witness :
    propagateTLESample kmModel issLine1 issLine2 0
      = some ⟨(1 : ℚ) * 1000, (2 : ℚ) * 1000, (3 : ℚ) * 1000⟩ :=
  propagateTLE_sample_meters kmModel issLine1 issLine2 0 ⟨1, 2, 3⟩ rfl

/-! ## Name disambiguation (`fetchData`'s `seenNames` loop) -/

/-- Decimal digits of `n`, most significant first; structural recursion on a
fuel argument (`fuel ≥ n` suffices, `natStrAux_val`). -/
def natStrAux : Nat → Nat → List Char
  | 0, _ => []
  | fuel + 1, n =>
    if n = 0 then [] else natStrAux fuel (n / 10) ++ [Char.ofNat (48 + n % 10)]

/-- Decimal rendering of a `Nat`: the model of the number-to-string
conversion in the template literal `${baseName}_${counter}`. -/
def natStr (n : Nat) : String :=
  if n = 0 then "0" else String.mk (natStrAux n n)

/-- The candidate name `${baseName}_${counter}`. -/
def suffixedName (base : String) (k : Nat) : String := base ++ "_" ++ natStr k

/-- The `while (seenNames.has(uniqueName))` loop body from counter `c` on:
return the first `${base}_${counter}` not in `seen`.  `fuel` bounds the
search; the loop terminates because the candidates are pairwise distinct and
`seen` is finite, and `seen.length + 1` fuel always reaches a fresh
candidate (`tryName_spec` with `fresh_suffix_exists`). -/
def tryName (seen : List String) (base : String) : Nat → Nat → String
  | c, 0 => suffixedName base c
  | c, fuel + 1 =>
    if suffixedName base c ∈ seen then tryName seen base (c + 1) fuel
    else suffixedName base c

/-- Name disambiguation of `fetchData`: `uniqueName` starts as `baseName`
and, while taken, becomes `${baseName}_${counter}` with the counter starting
at 1. -/
def uniqueName (seen : List String) (base : String) : String :=
  if base ∈ seen then tryName seen base 1 (seen.length + 1) else base

/-- The per-record naming loop: each kept record is stored under its
disambiguated name, which is immediately added to `seenNames`. -/
def assignNamesAux (seen : List String) : List String → List String
  | [] => []
  | b :: bs => uniqueName seen b :: assignNamesAux (uniqueName seen b :: seen) bs

/-- The names stored for a catalog ingestion run over `bases` (the base
names of the kept records, in order), starting from an empty `seenNames`. -/
def assignNames (bases : List String) : List String := assignNamesAux [] bases

theorem digitsToNat_append_singleton (l : List Char) (c : Char) :
    digitsToNat (l ++ [c]) = 10 * digitsToNat l + digitVal c := by
  unfold digitsToNat
  rw [List.foldl_append]
  rfl

theorem charDigit_val : ∀ d : Nat, d < 10 → digitVal (Char.ofNat (48 + d)) = d := by decide

theorem natStrAux_val : ∀ (fuel n : Nat), n ≤ fuel → digitsToNat (natStrAux fuel n) = n := by
  intro fuel
  induction fuel with
  | zero =>
    intro n hn
    rw [Nat.le_zero.mp hn]
    rfl
  | succ f ih =>
    intro n hn
    by_cases h0 : n = 0
    · subst h0
      rfl
    · have hdiv : n / 10 < n := Nat.div_lt_self (Nat.pos_of_ne_zero h0) (by norm_num)
      simp only [natStrAux, if_neg h0]
      rw [digitsToNat_append_singleton, ih (n / 10) (by omega),
        charDigit_val _ (Nat.mod_lt n (by norm_num))]
      exact Nat.div_add_mod n 10

theorem natStr_val (n : Nat) (hn : 0 < n) : digitsToNat (natStr n).data = n := by
  unfold natStr
  rw [if_neg (Nat.pos_iff_ne_zero.mp hn)]
  exact natStrAux_val n n (Nat.le_refl n)

theorem natStr_inj {m n : Nat} (hm : 0 < m) (hn : 0 < n) (h : natStr m = natStr n) :
    m = n := by
  have hv := congrArg (fun s => digitsToNat s.data) h
  simp only at hv
  rwa [natStr_val m hm, natStr_val n hn] at hv

theorem string_data_append (s t : String) : (s ++ t).data = s.data ++ t.data := rfl

theorem suffixedName_inj (base : String) {j k : Nat} (hj : 0 < j) (hk : 0 < k)
    (h : suffixedName base j = suffixedName base k) : j = k := by
  unfold suffixedName at h
  have hd := congrArg String.data h
  rw [string_data_append, string_data_append, string_data_append,
    string_data_append, List.append_assoc, List.append_assoc] at hd
  have hd2 := List.append_cancel_left hd
  have hd3 := List.append_cancel_left hd2
  exact natStr_inj hj hk (congrArg String.mk hd3)

theorem fresh_suffix_exists (seen : List String) (base : String) :
    ∃ k, 1 ≤ k ∧ k ≤ seen.length + 1 ∧ suffixedName base k ∉ seen := by
  by_contra hcon
  push_neg at hcon
  have hsub : (Finset.Icc 1 (seen.length + 1)).image (suffixedName base)
      ⊆ seen.toFinset := by
    intro x hx
    rw [Finset.mem_image] at hx
    obtain ⟨k, hk, rfl⟩ := hx
    rw [Finset.mem_Icc] at hk
    exact List.mem_toFinset.mpr (hcon k hk.1 hk.2)
  have hcard : ((Finset.Icc 1 (seen.length + 1)).image (suffixedName base)).card
      = seen.length + 1 := by
    rw [Finset.card_image_of_injOn, Nat.card_Icc]
    · omega
    · intro a ha b hb hab
      rw [Finset.coe_Icc, Set.mem_Icc] at ha hb
      exact suffixedName_inj base (by omega) (by omega) hab
  have hle := Finset.card_le_card hsub
  have hlen := List.toFinset_card_le seen
  omega

theorem tryName_spec (seen : List String) (base : String) :
    ∀ (fuel c : Nat), (∃ k, c ≤ k ∧ k < c + fuel ∧ suffixedName base k ∉ seen) →
      ∃ k, c ≤ k ∧ tryName seen base c fuel = suffixedName base k
        ∧ suffixedName base k ∉ seen
        ∧ ∀ j, c ≤ j → j < k → suffixedName base j ∈ seen := by
  intro fuel
  induction fuel with
  | zero =>
    intro c hex
    obtain ⟨k, hk1, hk2, -⟩ := hex
    omega
  | succ f ih =>
    intro c hex
    obtain ⟨k, hk1, hk2, hk3⟩ := hex
    by_cases hc : suffixedName base c ∈ seen
    · have hkc : k ≠ c := fun he => hk3 (he ▸ hc)
      obtain ⟨m, h1, h2, h3, h4⟩ := ih (c + 1) ⟨k, by omega, by omega, hk3⟩
      refine ⟨m, by omega, ?_, h3, ?_⟩
      · simp only [tryName, if_pos hc]
        exact h2
      · intro j hj1 hj2
        by_cases hjc : j = c
        · subst hjc
          exact hc
        · exact h4 j (by omega) hj2
    · refine ⟨c, Nat.le_refl c, ?_, hc,
        fun j hj1 hj2 => absurd (Nat.lt_of_le_of_lt hj1 hj2) (Nat.lt_irrefl c)⟩
      simp only [tryName, if_neg hc]

theorem uniqueName_spec (seen : List String) (base : String) :
    (base ∉ seen → uniqueName seen base = base)
    ∧ (base ∈ seen → ∃ k, 1 ≤ k ∧ uniqueName seen base = suffixedName base k
        ∧ suffixedName base k ∉ seen
        ∧ ∀ j, 1 ≤ j → j < k → suffixedName base j ∈ seen)
    ∧ uniqueName seen base ∉ seen := by
  by_cases hb : base ∈ seen
  · have hex : ∃ k, 1 ≤ k ∧ k < 1 + (seen.length + 1) ∧ suffixedName base k ∉ seen := by
      obtain ⟨k, h1, h2, h3⟩ := fresh_suffix_exists seen base
      exact ⟨k, h1, by omega, h3⟩
    obtain ⟨k, h1, h2, h3, h4⟩ := tryName_spec seen base (seen.length + 1) 1 hex
    refine ⟨fun h => absurd hb h, fun _ => ⟨k, h1, ?_, h3, h4⟩, ?_⟩
    · unfold uniqueName
      rw [if_pos hb]
      exact h2
    · unfold uniqueName
      rw [if_pos hb, h2]
      exact h3
  · refine ⟨fun _ => ?_, fun h => absurd h hb, ?_⟩
    · unfold uniqueName
      rw [if_neg hb]
    · unfold uniqueName
      rw [if_neg hb]
      exact hb

theorem assignNamesAux_nodup : ∀ (bases seen : List String),
    (assignNamesAux seen bases).Nodup ∧ ∀ x ∈ assignNamesAux seen bases, x ∉ seen := by
  intro bases
  induction bases with
  | nil =>
    intro seen
    exact ⟨List.nodup_nil, fun x hx => absurd hx (List.not_mem_nil x)⟩
  | cons b bs ih =>
    intro seen
    obtain ⟨ihn, ihd⟩ := ih (uniqueName seen b :: seen)
    have hu := (uniqueName_spec seen b).2.2
    constructor
    · show (uniqueName seen b :: assignNamesAux (uniqueName seen b :: seen) bs).Nodup
      rw [List.nodup_cons]
      exact ⟨fun hmem => (ihd _ hmem) (List.mem_cons_self _ _), ihn⟩
    · intro x hx
      rw [show assignNamesAux seen (b :: bs)
          = uniqueName seen b :: assignNamesAux (uniqueName seen b :: seen) bs from rfl,
        List.mem_cons] at hx
      rcases hx with rfl | hx
      · exact hu
      · exact fun hxs => (ihd x hx) (List.mem_cons_of_mem _ hxs)

theorem assignNamesAux_length : ∀ (bases seen : List String),
    (assignNamesAux seen bases).length = bases.length := by
  intro bases
  induction bases with
  | nil => intro seen; rfl
  | cons b bs ih =>
    intro seen
    show (uniqueName seen b :: assignNamesAux (uniqueName seen b :: seen) bs).length = _
    rw [List.length_cons, ih, List.length_cons]

/-- Claim C8: name collisions during catalog ingestion are resolved by
appending `_1`, `_2`, … to the repeated base name — a fresh record keeps its
base name; a colliding record gets `${base}_${k}` for the least counter
`k ≥ 1` whose candidate is unused, so the assigned name is never already
taken — and after ingestion the stored name list has no duplicates while
every record keeps exactly one entry (stays addressable by name). -/
theorem name_collision_resolution :
    (∀ bases : List String, (assignNames bases).Nodup
      ∧ (assignNames bases).length = bases.length)
    ∧ (∀ (seen : List String) (base : String),
        (base ∉ seen → uniqueName seen base = base)
        ∧ (base ∈ seen → ∃ k, 1 ≤ k ∧ uniqueName seen base = suffixedName base k
            ∧ suffixedName base k ∉ seen
            ∧ ∀ j, 1 ≤ j → j < k → suffixedName base j ∈ seen)
        ∧ uniqueName seen base ∉ seen) :=
  ⟨fun bases => ⟨(assignNamesAux_nodup bases []).1, assignNamesAux_length bases []⟩,
    uniqueName_spec⟩

/-- Concrete instantiation of `name_collision_resolution`: a thrice-repeated
base name is stored as `SAT`, `SAT_1`, `SAT_2`, without duplicates. -/
theorem name_collision_resolution_witness :
    assignNames ["SAT", "SAT", "SAT"] = ["SAT", "SAT_1", "SAT_2"]
    ∧ (assignNames ["SAT", "SAT", "SAT"]).Nodup :=
  ⟨by decide, (name_collision_resolution.1 ["SAT", "SAT", "SAT"]).1⟩
